import Mathlib

/-!
PortInterface: a 5-bit microcontroller port (port_interface.h).

A shallow embedding of the class `PortInterface`.  The three `uint8_t` members `DDR`, `PORT`
and `PIN` form the state; every member function becomes a function on that state.

Conventions of the embedding:

* a `uint8_t` is a `Fin 256`; storing an `int` into a `uint8_t` is `u8cast` (reduction mod 256);
* an `int` is an `Int`; its bit pattern is the 32-bit two's complement word `bits32`, and the
  bitwise operators `&`, `|`, `~` act on that word (`int_and`, `int_or`, `int_not`);
* `<<` and `>>` on `int` may be undefined (`int_shl`, `int_shr`): a shift count outside `[0, 32)`,
  a negative left operand or a result that does not fit are undefined behaviour in C++;
* a call either returns (`Outcome.ret`), reaches `exit(-1)` (`Outcome.fatal`, carrying the
  registers at that point) or runs into undefined behaviour (`Outcome.undef`).
-/

namespace PortInterface

/-! ## Machine integers -/

/-- The conversion `(uint8_t)x` of an `int`: reduction modulo 256. -/
def u8cast (x : Int) : Fin 256 := ⟨(x % 256).toNat, by omega⟩

/-- The 32-bit two's complement bit pattern of an `int`. -/
def bits32 (x : Int) : Nat := (x % 4294967296).toNat

/-- The `int` whose 32-bit two's complement bit pattern is `n`. -/
def ofBits32 (n : Nat) : Int := if n < 2147483648 then (n : Int) else (n : Int) - 4294967296

/-- The operator `a & b` on `int`. -/
def int_and (a b : Int) : Int := ofBits32 (bits32 a &&& bits32 b)

/-- The operator `a | b` on `int`. -/
def int_or (a b : Int) : Int := ofBits32 (bits32 a ||| bits32 b)

/-- The operator `~a` on `int`: every bit of the 32-bit word is flipped. -/
def int_not (a : Int) : Int := ofBits32 (4294967295 - bits32 a)

/-- The operator `a << k` on `int`; `none` is undefined behaviour (shift count outside
`[0, 32)`, negative `a`, or a result that is not representable). -/
def int_shl (a k : Int) : Option Int :=
  if 0 ≤ k ∧ k < 32 ∧ 0 ≤ a ∧ a * 2 ^ k.toNat < 2147483648 then some (a * 2 ^ k.toNat) else none

/-- The operator `a >> k` on `int` (arithmetic shift); `none` is undefined behaviour (shift
count outside `[0, 32)`). -/
def int_shr (a k : Int) : Option Int :=
  if 0 ≤ k ∧ k < 32 then some (a / 2 ^ k.toNat) else none

/-! ## State and outcomes -/

/-- The private registers of a `PortInterface` object. -/
structure Port where
  /-- Direction register: bit `i` set means pin `i` is an output. -/
  DDR : Fin 256
  /-- Output data register. -/
  PORT : Fin 256
  /-- Input data register. -/
  PIN : Fin 256
  deriving DecidableEq

/-- The object after construction: the member initialisers zero all three registers. -/
def newPort : Port := { DDR := 0, PORT := 0, PIN := 0 }

/-- What a call of a member function does. -/
inductive Outcome (α : Type) where
  /-- The call returns `val`, leaving the registers `st`. -/
  | ret (val : α) (st : Port) : Outcome α
  /-- The call reaches `exit(-1)` with the registers `st`. -/
  | fatal (st : Port) : Outcome α
  /-- The call evaluates an expression with undefined behaviour. -/
  | undef : Outcome α
  deriving DecidableEq

/-! ## Constants -/

/-- Member `DDR_SIZE` (a `uint8_t`, promoted to `int` where it is used). -/
def DDR_SIZE : Int := 8

/-- Member `PORT_WIDTH` (a `uint8_t`, promoted to `int` where it is used). -/
def PORT_WIDTH : Int := 5

/-- Member `PORT_WIDTH_BITMASK = 0b00011111` (a `uint8_t`, promoted to `int` where it is
used). -/
def PORT_WIDTH_BITMASK : Int := 31

/-! ## Member functions -/

/-- Source `checkPin`: `pin = (uint8_t)pin; return (pin >= 0 && pin < PORT_WIDTH)`. -/
def checkPin (pin : Int) : Bool :=
  let pin : Int := ((u8cast pin).val : Int)
  decide (pin ≥ 0) && decide (pin < PORT_WIDTH)

/-- Source `setPortOutput`: `DDR |= PORT_WIDTH_BITMASK`. -/
def setPortOutput (s : Port) : Port :=
  { s with DDR := u8cast (int_or (s.DDR.val : Int) PORT_WIDTH_BITMASK) }

/-- Source `setPortInput`: `DDR &= ~PORT_WIDTH_BITMASK`. -/
def setPortInput (s : Port) : Port :=
  { s with DDR := u8cast (int_and (s.DDR.val : Int) (int_not PORT_WIDTH_BITMASK)) }

/-- Source `setPinOutput`: `if (checkPin(pin)) { DDR |= 1 << pin; return true; }
else exit(-1)`. -/
def setPinOutput (pin : Int) (s : Port) : Outcome Bool :=
  if checkPin pin then
    match int_shl 1 pin with
    | some m => Outcome.ret true { s with DDR := u8cast (int_or (s.DDR.val : Int) m) }
    | none => Outcome.undef
  else
    Outcome.fatal s

/-- Source `setPinInput`: `if (checkPin(pin)) { DDR &= ~(1 << pin); return true; }
else exit(-1)`. -/
def setPinInput (pin : Int) (s : Port) : Outcome Bool :=
  if checkPin pin then
    match int_shl 1 pin with
    | some m => Outcome.ret true { s with DDR := u8cast (int_and (s.DDR.val : Int) (int_not m)) }
    | none => Outcome.undef
  else
    Outcome.fatal s

/-- Source `writePort`: `setPortOutput();
PORT = (PORT & ~PORT_WIDTH_BITMASK) + ((uint8_t)data & PORT_WIDTH_BITMASK)`. -/
def writePort (data : Int) (s : Port) : Port :=
  let s1 := setPortOutput s
  { s1 with
    PORT := u8cast (int_and (s1.PORT.val : Int) (int_not PORT_WIDTH_BITMASK)
              + int_and ((u8cast data).val : Int) PORT_WIDTH_BITMASK) }

/-- Source `readPort`: `setPortInput(); return int(PIN & PORT_WIDTH_BITMASK)`.  The result is
the returned value together with the registers after the call. -/
def readPort (s : Port) : Int × Port :=
  let s1 := setPortInput s
  (int_and (s1.PIN.val : Int) PORT_WIDTH_BITMASK, s1)

/-- Source `writeInt`: `if (setPinOutput(pin)) { if (data == 0) PORT &= ~(1 << pin);
else if (data == 1) PORT |= (1 << pin); else exit(-1); }`. -/
def writeInt (pin data : Int) (s : Port) : Outcome Unit :=
  match setPinOutput pin s with
  | Outcome.ret true s1 =>
    if data = 0 then
      match int_shl 1 pin with
      | some m =>
        Outcome.ret () { s1 with PORT := u8cast (int_and (s1.PORT.val : Int) (int_not m)) }
      | none => Outcome.undef
    else if data = 1 then
      match int_shl 1 pin with
      | some m => Outcome.ret () { s1 with PORT := u8cast (int_or (s1.PORT.val : Int) m) }
      | none => Outcome.undef
    else
      Outcome.fatal s1
  | Outcome.ret false s1 => Outcome.ret () s1
  | Outcome.fatal s1 => Outcome.fatal s1
  | Outcome.undef => Outcome.undef

/-- Source `readInt`: `if (setPinInput(pin))
return (int)(PIN & (1 << pin)) << (DDR_SIZE - pin) >> DDR_SIZE;  exit(-1);`. -/
def readInt (pin : Int) (s : Port) : Outcome Int :=
  match setPinInput pin s with
  | Outcome.ret true s1 =>
    match int_shl 1 pin with
    | some m =>
      match int_shl (int_and (s1.PIN.val : Int) m) (DDR_SIZE - pin) with
      | some v =>
        match int_shr v DDR_SIZE with
        | some r => Outcome.ret r s1
        | none => Outcome.undef
      | none => Outcome.undef
    | none => Outcome.undef
  | Outcome.ret false s1 => Outcome.fatal s1
  | Outcome.fatal s1 => Outcome.fatal s1
  | Outcome.undef => Outcome.undef

/-- Source `write`: `writeInt(pin, data ? 1 : 0)`. -/
def write (pin : Int) (data : Bool) (s : Port) : Outcome Unit :=
  writeInt pin (if data then 1 else 0) s

/-- Source `read`: `return readInt(pin) ? 1 : 0`. -/
def read (pin : Int) (s : Port) : Outcome Bool :=
  match readInt pin s with
  | Outcome.ret v s1 => Outcome.ret (if v ≠ 0 then true else false) s1
  | Outcome.fatal s1 => Outcome.fatal s1
  | Outcome.undef => Outcome.undef

/-! ## Sequences of calls -/

/-- The registers a call leaves when it returns; `none` when it reaches `exit(-1)` or is
undefined. -/
def Outcome.state {α : Type} : Outcome α → Option Port
  | Outcome.ret _ st => some st
  | Outcome.fatal _ => none
  | Outcome.undef => none

/-- A call of one public member function of `PortInterface`, with its arguments. -/
inductive Op where
  | setPortOutput : Op
  | setPortInput : Op
  | setPinOutput (pin : Int) : Op
  | setPinInput (pin : Int) : Op
  | writePort (data : Int) : Op
  | readPort : Op
  | write (pin : Int) (data : Bool) : Op
  | read (pin : Int) : Op
  | writeInt (pin data : Int) : Op
  | readInt (pin : Int) : Op
  deriving DecidableEq

/-- The registers after the call `op` made on the registers `s`, when the call returns. -/
def callOp (op : Op) (s : Port) : Option Port :=
  match op with
  | Op.setPortOutput => some (setPortOutput s)
  | Op.setPortInput => some (setPortInput s)
  | Op.setPinOutput pin => (setPinOutput pin s).state
  | Op.setPinInput pin => (setPinInput pin s).state
  | Op.writePort data => some (writePort data s)
  | Op.readPort => some (readPort s).2
  | Op.write pin data => (write pin data s).state
  | Op.read pin => (read pin s).state
  | Op.writeInt pin data => (writeInt pin data s).state
  | Op.readInt pin => (readInt pin s).state

/-- The registers after the calls `ops` made one after the other on the registers `s`;
`none` as soon as one of the calls does not return. -/
def runOps : List Op → Port → Option Port
  | [], s => some s
  | op :: rest, s =>
    match callOp op s with
    | some s1 => runOps rest s1
    | none => none

/-- A call whose pin argument, if it has one, lies in [0, 5) and whose `int` bit value, if it
has one, is 0 or 1. -/
def validArgs (op : Op) : Bool :=
  match op with
  | Op.setPortOutput => true
  | Op.setPortInput => true
  | Op.setPinOutput pin => decide (0 ≤ pin ∧ pin < 5)
  | Op.setPinInput pin => decide (0 ≤ pin ∧ pin < 5)
  | Op.writePort _ => true
  | Op.readPort => true
  | Op.write pin _ => decide (0 ≤ pin ∧ pin < 5)
  | Op.read pin => decide (0 ≤ pin ∧ pin < 5)
  | Op.writeInt pin data => decide (0 ≤ pin ∧ pin < 5) && decide (data = 0 ∨ data = 1)
  | Op.readInt pin => decide (0 ≤ pin ∧ pin < 5)

/-! ## Arithmetic of the machine-integer operators -/

theorem u8cast_val_natCast (n : Nat) : (u8cast (n : Int)).val = n % 256 := by
  simp only [u8cast]
  omega

theorem u8cast_val_of_lt (n : Nat) (h : n < 256) : (u8cast (n : Int)).val = n := by
  rw [u8cast_val_natCast]
  exact Nat.mod_eq_of_lt h

theorem u8cast_val_int (x : Int) : ((u8cast x).val : Int) = x % 256 := by
  simp only [u8cast]
  omega

theorem bits32_natCast (n : Nat) (h : n < 4294967296) : bits32 (n : Int) = n := by
  simp only [bits32]
  omega

theorem ofBits32_of_lt (n : Nat) (h : n < 2147483648) : ofBits32 n = (n : Int) := by
  simp only [ofBits32, if_pos h]

theorem int_or_natCast (a b : Nat) (ha : a < 2147483648) (hb : b < 2147483648) :
    int_or (a : Int) (b : Int) = ((a ||| b : Nat) : Int) := by
  have hab : a ||| b < 2 ^ 31 := Nat.or_lt_two_pow (by omega) (by omega)
  rw [int_or, bits32_natCast a (by omega), bits32_natCast b (by omega),
    ofBits32_of_lt _ (by omega)]

theorem int_and_natCast (a b : Nat) (ha : a < 2147483648) (hb : b < 4294967296) :
    int_and (a : Int) (b : Int) = ((a &&& b : Nat) : Int) := by
  have hab : a &&& b ≤ a := Nat.and_le_left
  rw [int_and, bits32_natCast a (by omega), bits32_natCast b hb, ofBits32_of_lt _ (by omega)]

theorem bits32_int_not_natCast (b : Nat) (hb : b < 2147483648) :
    bits32 (int_not (b : Int)) = 4294967295 - b := by
  rw [int_not, bits32_natCast b (by omega)]
  simp only [ofBits32, bits32]
  split <;> omega

theorem int_and_not_natCast (a b : Nat) (ha : a < 2147483648) (hb : b < 2147483648) :
    int_and (a : Int) (int_not (b : Int)) = ((a &&& (4294967295 - b) : Nat) : Int) := by
  have hab : a &&& (4294967295 - b) ≤ a := Nat.and_le_left
  rw [int_and, bits32_int_not_natCast b hb, bits32_natCast a (by omega),
    ofBits32_of_lt _ (by omega)]

theorem testBit_u8 (x : Fin 256) (i : Nat) (hi : 8 ≤ i) : x.val.testBit i = false := by
  apply Nat.testBit_lt_two_pow
  have h256 : (2 : Nat) ^ 8 ≤ 2 ^ i := Nat.pow_le_pow_right (by decide) hi
  have hx := x.isLt
  omega

theorem testBit_not_mask (b i : Nat) (hb : b < 2 ^ 32) :
    (4294967295 - b).testBit i = (decide (i < 32) && !b.testBit i) := by
  have h : 4294967295 - b = 2 ^ 32 - (b + 1) := by omega
  rw [h, Nat.testBit_two_pow_sub_succ hb]

/-! ## Setting and clearing one bit of a register -/

theorem setBit_val (x : Fin 256) (p : Nat) (hp : p < 8) :
    (u8cast (int_or (x.val : Int) ((2 ^ p : Nat) : Int))).val = x.val ||| 2 ^ p := by
  have hx := x.isLt
  have h2 : (2 : Nat) ^ p < 2 ^ 8 := Nat.pow_lt_pow_right (by decide) hp
  have hor : x.val ||| 2 ^ p < 2 ^ 8 := Nat.or_lt_two_pow (by omega) h2
  rw [int_or_natCast _ _ (by omega) (by omega), u8cast_val_of_lt _ (by omega)]

theorem setBit_testBit (x : Fin 256) (p : Nat) (hp : p < 8) (i : Nat) :
    (u8cast (int_or (x.val : Int) ((2 ^ p : Nat) : Int))).val.testBit i
      = if i = p then true else x.val.testBit i := by
  rw [setBit_val x p hp, Nat.testBit_or, Nat.testBit_two_pow]
  by_cases h : i = p
  · subst h
    simp
  · have h' : ¬ p = i := fun e => h e.symm
    simp [h, h']

theorem clearBit_val (x : Fin 256) (p : Nat) (hp : p < 8) :
    (u8cast (int_and (x.val : Int) (int_not ((2 ^ p : Nat) : Int)))).val
      = x.val &&& (4294967295 - 2 ^ p) := by
  have hx := x.isLt
  have h2 : (2 : Nat) ^ p < 2 ^ 8 := Nat.pow_lt_pow_right (by decide) hp
  have hand : x.val &&& (4294967295 - 2 ^ p) ≤ x.val := Nat.and_le_left
  rw [int_and_not_natCast _ _ (by omega) (by omega), u8cast_val_of_lt _ (by omega)]

theorem clearBit_testBit (x : Fin 256) (p : Nat) (hp : p < 8) (i : Nat) :
    (u8cast (int_and (x.val : Int) (int_not ((2 ^ p : Nat) : Int)))).val.testBit i
      = if i = p then false else x.val.testBit i := by
  have h2 : (2 : Nat) ^ p < 2 ^ 8 := Nat.pow_lt_pow_right (by decide) hp
  rw [clearBit_val x p hp, Nat.testBit_and, testBit_not_mask _ i (by omega),
    Nat.testBit_two_pow]
  by_cases h : i = p
  · subst h
    simp
  · have h' : ¬ p = i := fun e => h e.symm
    by_cases h32 : i < 32
    · simp [h, h', h32]
    · have hx : x.val.testBit i = false := testBit_u8 x i (by omega)
      simp [h, hx]

/-! ## Valid pins -/

theorem valid_pin_natCast (pin : Int) (h : 0 ≤ pin ∧ pin < 5) :
    ∃ p : Nat, p < 5 ∧ pin = (p : Int) ∧ pin.toNat = p :=
  ⟨pin.toNat, by omega, by omega, rfl⟩

theorem checkPin_natCast (p : Nat) (hp : p < 5) : checkPin (p : Int) = true := by
  have h := u8cast_val_of_lt p (by omega)
  simp only [checkPin, PORT_WIDTH, h]
  simp
  omega

theorem checkPin_eq (pin : Int) : checkPin pin = decide (pin % 256 < 5) := by
  have h := u8cast_val_int pin
  simp only [checkPin, PORT_WIDTH, h]
  have h0 : 0 ≤ pin % 256 := by omega
  simp [h0]

theorem int_shl_one_natCast (p : Nat) (hp : p < 5) :
    int_shl 1 (p : Int) = some ((2 ^ p : Nat) : Int) := by
  interval_cases p <;> decide

theorem setPinOutput_natCast (p : Nat) (hp : p < 5) (s : Port) :
    setPinOutput (p : Int) s
      = Outcome.ret true { s with DDR := u8cast (int_or (s.DDR.val : Int) ((2 ^ p : Nat) : Int)) } := by
  simp only [setPinOutput, checkPin_natCast p hp, int_shl_one_natCast p hp, if_true]

theorem setPinInput_natCast (p : Nat) (hp : p < 5) (s : Port) :
    setPinInput (p : Int) s
      = Outcome.ret true
          { s with DDR := u8cast (int_and (s.DDR.val : Int) (int_not ((2 ^ p : Nat) : Int))) } := by
  simp only [setPinInput, checkPin_natCast p hp, int_shl_one_natCast p hp, if_true]

theorem writeInt_zero_natCast (p : Nat) (hp : p < 5) (s : Port) :
    writeInt (p : Int) 0 s
      = Outcome.ret ()
          { DDR := u8cast (int_or (s.DDR.val : Int) ((2 ^ p : Nat) : Int))
            PORT := u8cast (int_and (s.PORT.val : Int) (int_not ((2 ^ p : Nat) : Int)))
            PIN := s.PIN } := by
  simp only [writeInt, setPinOutput_natCast p hp, int_shl_one_natCast p hp, if_true]

theorem writeInt_one_natCast (p : Nat) (hp : p < 5) (s : Port) :
    writeInt (p : Int) 1 s
      = Outcome.ret ()
          { DDR := u8cast (int_or (s.DDR.val : Int) ((2 ^ p : Nat) : Int))
            PORT := u8cast (int_or (s.PORT.val : Int) ((2 ^ p : Nat) : Int))
            PIN := s.PIN } := by
  simp [writeInt, setPinOutput_natCast p hp, int_shl_one_natCast p hp]

theorem writeInt_other_natCast (p : Nat) (hp : p < 5) (data : Int) (h0 : data ≠ 0)
    (h1 : data ≠ 1) (s : Port) :
    writeInt (p : Int) data s
      = Outcome.fatal { s with DDR := u8cast (int_or (s.DDR.val : Int) ((2 ^ p : Nat) : Int)) } := by
  simp only [writeInt, setPinOutput_natCast p hp, if_neg h0, if_neg h1]

/-! ## The shift sequence of `readInt` -/

theorem readInt_shl (p : Nat) (hp : p < 5) (b : Bool) :
    int_shl ((b.toNat * 2 ^ p : Nat) : Int) (DDR_SIZE - (p : Int))
      = some ((b.toNat * 256 : Nat) : Int) := by
  interval_cases p <;> cases b <;> decide

theorem readInt_shr (b : Bool) :
    int_shr ((b.toNat * 256 : Nat) : Int) DDR_SIZE = some (b.toNat : Int) := by
  cases b <;> decide

theorem readInt_natCast (p : Nat) (hp : p < 5) (s : Port) :
    readInt (p : Int) s
      = Outcome.ret ((s.PIN.val.testBit p).toNat : Int)
          { s with DDR := u8cast (int_and (s.DDR.val : Int) (int_not ((2 ^ p : Nat) : Int))) } := by
  have hx := s.PIN.isLt
  have h2 : (2 : Nat) ^ p < 2 ^ 5 := Nat.pow_lt_pow_right (by decide) hp
  have hand : int_and (s.PIN.val : Int) ((2 ^ p : Nat) : Int)
      = (((s.PIN.val.testBit p).toNat * 2 ^ p : Nat) : Int) := by
    rw [int_and_natCast _ _ (by omega) (by omega), Nat.and_two_pow]
  simp only [readInt, setPinInput_natCast p hp, int_shl_one_natCast p hp, hand,
    readInt_shl p hp, readInt_shr]

/-! ## The whole-port mask -/

set_option maxRecDepth 100000 in
theorem and_224_eq (x : Fin 256) : x.val &&& 224 = x.val / 32 * 32 := by
  revert x
  decide

theorem and_31_eq (n : Nat) : n &&& 31 = n % 32 :=
  Nat.and_pow_two_sub_one_eq_mod n 5

theorem and_not_mask_eq (x : Fin 256) : x.val &&& (4294967295 - 31) = x.val &&& 224 := by
  apply Nat.eq_of_testBit_eq
  intro i
  have h224 : (224 : Nat) = 2 ^ 8 - (31 + 1) := by decide
  have h31 : (31 : Nat) = 2 ^ 5 - 1 := by decide
  rw [Nat.testBit_and, Nat.testBit_and, testBit_not_mask 31 i (by decide), h224,
    Nat.testBit_two_pow_sub_succ (by decide)]
  by_cases h8 : i < 8
  · have h32 : i < 32 := by omega
    simp [h8, h32]
  · have hx : x.val.testBit i = false := testBit_u8 x i (by omega)
    simp [hx]

theorem setMask_val (x : Fin 256) :
    (u8cast (int_or (x.val : Int) PORT_WIDTH_BITMASK)).val = x.val ||| 31 := by
  have hx := x.isLt
  have hor : x.val ||| 31 < 2 ^ 8 := Nat.or_lt_two_pow (by omega) (by decide)
  have hm : PORT_WIDTH_BITMASK = ((31 : Nat) : Int) := rfl
  rw [hm, int_or_natCast _ _ (by omega) (by omega), u8cast_val_of_lt _ (by omega)]

theorem clearMask_int (x : Fin 256) :
    int_and (x.val : Int) (int_not PORT_WIDTH_BITMASK) = ((x.val &&& 224 : Nat) : Int) := by
  have hx := x.isLt
  have hm : PORT_WIDTH_BITMASK = ((31 : Nat) : Int) := rfl
  rw [hm, int_and_not_natCast _ _ (by omega) (by omega), and_not_mask_eq]

theorem clearMask_val (x : Fin 256) :
    (u8cast (int_and (x.val : Int) (int_not PORT_WIDTH_BITMASK))).val = x.val &&& 224 := by
  have hx := x.isLt
  have hand : x.val &&& 224 ≤ x.val := Nat.and_le_left
  rw [clearMask_int, u8cast_val_of_lt _ (by omega)]

theorem int_and_mask (data : Int) :
    int_and data PORT_WIDTH_BITMASK = (((data % 32).toNat : Nat) : Int) := by
  have hm : PORT_WIDTH_BITMASK = ((31 : Nat) : Int) := rfl
  have h31 : bits32 data &&& 31 = (data % 32).toNat := by
    rw [and_31_eq]
    simp only [bits32]
    omega
  rw [hm, int_and, bits32_natCast 31 (by decide), h31, ofBits32_of_lt _ (by omega)]

theorem u8cast_mod_32 (data : Int) : (((u8cast data).val : Int) % 32).toNat = (data % 32).toNat := by
  rw [u8cast_val_int]
  omega

theorem add_eq_or_low (a b : Nat) (hb : b < 32) : a / 32 * 32 + b = (a / 32 * 32) ||| b := by
  have h := Nat.mul_add_lt_is_or (i := 5) (b := b) (by omega) (a / 32)
  have e : (2 : Nat) ^ 5 = 32 := by decide
  rw [e] at h
  rw [Nat.mul_comm (a / 32) 32]
  exact h

theorem writePort_PORT_val (data : Int) (s : Port) :
    (writePort data s).PORT.val = (s.PORT.val &&& 224) ||| (data % 32).toNat := by
  have hx := s.PORT.isLt
  have hd : (data % 32).toNat < 32 := by omega
  have hs : (setPortOutput s).PORT = s.PORT := rfl
  simp only [writePort, hs]
  rw [clearMask_int, int_and_mask, u8cast_mod_32, and_224_eq, ← Nat.cast_add,
    u8cast_val_of_lt _ (by omega), add_eq_or_low _ _ hd]

/-! ## Pin-level write and read -/

theorem writeInt_post (s : Port) (pin value : Int) (hpin : 0 ≤ pin ∧ pin < 5)
    (hval : value = 0 ∨ value = 1) :
    ∃ s' : Port, writeInt pin value s = Outcome.ret () s' ∧
      (∀ i : Nat, s'.PORT.val.testBit i
        = if i = pin.toNat then decide (value = 1) else s.PORT.val.testBit i) ∧
      (∀ i : Nat, s'.DDR.val.testBit i
        = if i = pin.toNat then true else s.DDR.val.testBit i) ∧
      s'.PIN = s.PIN := by
  obtain ⟨p, hp, rfl, hpn⟩ := valid_pin_natCast pin hpin
  rw [hpn]
  rcases hval with rfl | rfl
  · refine ⟨_, writeInt_zero_natCast p hp s, ?_, ?_, rfl⟩
    · intro i
      simpa using clearBit_testBit s.PORT p (by omega) i
    · intro i
      exact setBit_testBit s.DDR p (by omega) i
  · refine ⟨_, writeInt_one_natCast p hp s, ?_, ?_, rfl⟩
    · intro i
      simpa using setBit_testBit s.PORT p (by omega) i
    · intro i
      exact setBit_testBit s.DDR p (by omega) i

theorem readInt_post (s : Port) (pin : Int) (hpin : 0 ≤ pin ∧ pin < 5) :
    ∃ (r : Int) (s' : Port), readInt pin s = Outcome.ret r s' ∧
      (r = if s.PIN.val.testBit pin.toNat then 1 else 0) ∧
      (r = 0 ∨ r = 1) ∧
      (∀ i : Nat, s'.DDR.val.testBit i
        = if i = pin.toNat then false else s.DDR.val.testBit i) ∧
      s'.PORT = s.PORT ∧ s'.PIN = s.PIN := by
  obtain ⟨p, hp, rfl, hpn⟩ := valid_pin_natCast pin hpin
  rw [hpn]
  refine ⟨_, _, readInt_natCast p hp s, ?_, ?_, ?_, rfl, rfl⟩
  · cases s.PIN.val.testBit p <;> rfl
  · cases s.PIN.val.testBit p
    · exact Or.inl rfl
    · exact Or.inr rfl
  · intro i
    exact clearBit_testBit s.DDR p (by omega) i

/-- C1: for a valid pin and a value in {0, 1}, `writeInt` returns; afterwards bit `pin` of
`PORT` is the value and bit `pin` of `DDR` is set, every other bit of `PORT` and `DDR` and
the whole of `PIN` are as before.  On a new port `writeInt(2, 1)` gives `DDR = PORT = 4`. -/
theorem writeInt_sets_bit (s : Port) (pin value : Int) (hpin : 0 ≤ pin ∧ pin < 5)
    (hval : value = 0 ∨ value = 1) :
    (∃ s' : Port, writeInt pin value s = Outcome.ret () s' ∧
      (∀ i : Nat, s'.PORT.val.testBit i
        = if i = pin.toNat then decide (value = 1) else s.PORT.val.testBit i) ∧
      (∀ i : Nat, s'.DDR.val.testBit i
        = if i = pin.toNat then true else s.DDR.val.testBit i) ∧
      s'.PIN = s.PIN) ∧
    writeInt 2 1 newPort = Outcome.ret () { DDR := 4, PORT := 4, PIN := 0 } := by
  exact ⟨writeInt_post s pin value hpin hval, by decide⟩

/-- Witness for C1: pin 3, value 0, registers `DDR = 5`, `PORT = 255`, `PIN = 170`. -/
theorem writeInt_sets_bit_witness :
    ((0 : Int) ≤ 3 ∧ (3 : Int) < 5) ∧ ((0 : Int) = 0 ∨ (0 : Int) = 1) ∧
    ((∃ s' : Port, writeInt 3 0 { DDR := 5, PORT := 255, PIN := 170 } = Outcome.ret () s' ∧
      (∀ i : Nat, s'.PORT.val.testBit i
        = if i = (3 : Int).toNat then decide ((0 : Int) = 1)
          else (255 : Fin 256).val.testBit i) ∧
      (∀ i : Nat, s'.DDR.val.testBit i
        = if i = (3 : Int).toNat then true else (5 : Fin 256).val.testBit i) ∧
      s'.PIN = 170) ∧
    writeInt 2 1 newPort = Outcome.ret () { DDR := 4, PORT := 4, PIN := 0 }) :=
  ⟨by decide, by decide,
    writeInt_sets_bit { DDR := 5, PORT := 255, PIN := 170 } 3 0 (by decide) (by decide)⟩

/-- C2: for a valid pin, `readInt` returns 1 when bit `pin` of `PIN` is set and 0 otherwise
(no shift of the sequence is undefined); it clears bit `pin` of `DDR` and changes no other
bit of `DDR`, nor `PORT`, nor `PIN`. -/
theorem readInt_returns_bit (s : Port) (pin : Int) (hpin : 0 ≤ pin ∧ pin < 5) :
    ∃ (r : Int) (s' : Port), readInt pin s = Outcome.ret r s' ∧
      (r = if s.PIN.val.testBit pin.toNat then 1 else 0) ∧
      (r = 0 ∨ r = 1) ∧
      (∀ i : Nat, s'.DDR.val.testBit i
        = if i = pin.toNat then false else s.DDR.val.testBit i) ∧
      s'.PORT = s.PORT ∧ s'.PIN = s.PIN :=
  readInt_post s pin hpin

/-- Witness for C2: pin 3 with `PIN = 9`, whose bit 3 is set. -/
theorem readInt_returns_bit_witness :
    ((0 : Int) ≤ 3 ∧ (3 : Int) < 5) ∧
    ∃ (r : Int) (s' : Port), readInt 3 { DDR := 255, PORT := 7, PIN := 9 } = Outcome.ret r s' ∧
      (r = if (9 : Fin 256).val.testBit (3 : Int).toNat then 1 else 0) ∧
      (r = 0 ∨ r = 1) ∧
      (∀ i : Nat, s'.DDR.val.testBit i
        = if i = (3 : Int).toNat then false else (255 : Fin 256).val.testBit i) ∧
      s'.PORT = 7 ∧ s'.PIN = 9 :=
  ⟨by decide, readInt_returns_bit { DDR := 255, PORT := 7, PIN := 9 } 3 (by decide)⟩

/-! ## Port-level write and read -/

theorem or_31_testBit (x i : Nat) :
    (x ||| 31).testBit i = if i < 5 then true else x.testBit i := by
  have h31 : (31 : Nat) = 2 ^ 5 - 1 := by decide
  rw [Nat.testBit_or, h31, Nat.testBit_two_pow_sub_one]
  by_cases h : i < 5 <;> simp [h]

theorem and_224_testBit (x : Fin 256) (i : Nat) :
    (x.val &&& 224).testBit i = if i < 5 then false else x.val.testBit i := by
  have h224 : (224 : Nat) = 2 ^ 8 - (31 + 1) := by decide
  have h31 : (31 : Nat) = 2 ^ 5 - 1 := by decide
  rw [Nat.testBit_and, h224, Nat.testBit_two_pow_sub_succ (by decide), h31,
    Nat.testBit_two_pow_sub_one]
  by_cases h : i < 5
  · simp [h]
  · by_cases h8 : i < 8
    · simp [h, h8]
    · have hx : x.val.testBit i = false := testBit_u8 x i (by omega)
      simp [h, hx]

/-- C3: for every integer `data`, `writePort` leaves `PORT = (PORT & 0b11100000) |
(data & 0b00011111)`: the low five bits are those of `data`, bits 5 to 7 are kept, and the
sum computed by the code is that bitwise or.  Bits 0 to 4 of `DDR` are set, bits 5 to 7 of
`DDR` and the whole of `PIN` are kept.  On a new port `writePort(0b11100000)` leaves
`PORT = 0`. -/
theorem writePort_masks (s : Port) (data : Int) :
    (writePort data s).PORT.val = (s.PORT.val &&& 224) ||| (data % 32).toNat ∧
    ((writePort data s).PORT.val : Int)
      = int_or (int_and (s.PORT.val : Int) 224) (int_and data 31) ∧
    (writePort data s).PORT.val % 32 = (data % 32).toNat ∧
    (writePort data s).PORT.val / 32 = s.PORT.val / 32 ∧
    (∀ i : Nat, (writePort data s).DDR.val.testBit i
      = if i < 5 then true else s.DDR.val.testBit i) ∧
    (writePort data s).PIN = s.PIN ∧
    (writePort 224 newPort).PORT = 0 := by
  have hx := s.PORT.isLt
  have hd : (data % 32).toNat < 32 := by omega
  have hval := writePort_PORT_val data s
  have hle : s.PORT.val &&& 224 ≤ s.PORT.val := Nat.and_le_left
  have hsum : (s.PORT.val &&& 224) ||| (data % 32).toNat
      = s.PORT.val / 32 * 32 + (data % 32).toNat := by
    rw [and_224_eq, add_eq_or_low _ _ hd]
  refine ⟨hval, ?_, ?_, ?_, ?_, rfl, by decide⟩
  · have h224 : (224 : Int) = ((224 : Nat) : Int) := rfl
    have hm : int_and data 31 = (((data % 32).toNat : Nat) : Int) := int_and_mask data
    rw [hval, hm, h224, int_and_natCast _ _ (by omega) (by omega),
      int_or_natCast _ _ (by omega) (by omega)]
  · rw [hval, hsum]
    omega
  · rw [hval, hsum]
    omega
  · intro i
    have hD : (writePort data s).DDR.val = s.DDR.val ||| 31 := setMask_val s.DDR
    rw [hD, or_31_testBit]

/-- C4: `readPort` returns `PIN & 0b00011111`, an integer between 0 and 31; it clears bits 0
to 4 of `DDR`, keeps bits 5 to 7 of `DDR`, and keeps `PORT` and `PIN`. -/
theorem readPort_masks (s : Port) :
    (readPort s).1 = ((s.PIN.val &&& 31 : Nat) : Int) ∧
    0 ≤ (readPort s).1 ∧ (readPort s).1 ≤ 31 ∧
    (∀ i : Nat, (readPort s).2.DDR.val.testBit i
      = if i < 5 then false else s.DDR.val.testBit i) ∧
    (readPort s).2.PORT = s.PORT ∧ (readPort s).2.PIN = s.PIN := by
  have hx := s.PIN.isLt
  have hr : (readPort s).1 = ((s.PIN.val &&& 31 : Nat) : Int) := by
    have hm : PORT_WIDTH_BITMASK = ((31 : Nat) : Int) := rfl
    have hs : (setPortInput s).PIN = s.PIN := rfl
    simp only [readPort, hs]
    rw [hm, int_and_natCast _ _ (by omega) (by omega)]
  have h31 : s.PIN.val &&& 31 = s.PIN.val % 32 := and_31_eq _
  refine ⟨hr, ?_, ?_, ?_, rfl, rfl⟩
  · rw [hr]
    omega
  · rw [hr, h31]
    omega
  · intro i
    have hD : (readPort s).2.DDR.val = s.DDR.val &&& 224 := clearMask_val s.DDR
    rw [hD, and_224_testBit]

/-! ## Direction of a single pin -/

/-- C5: for a valid pin, `setPinOutput` returns `true` and sets bit `pin` of `DDR`,
`setPinInput` returns `true` and clears it; output followed by input leaves the bit cleared
and input followed by output leaves it set.  Every other bit of `DDR`, and `PORT` and `PIN`,
stay as they were. -/
theorem setPin_direction (s : Port) (pin : Int) (hpin : 0 ≤ pin ∧ pin < 5) :
    (∃ s1 : Port, setPinOutput pin s = Outcome.ret true s1 ∧
      (∀ i : Nat, s1.DDR.val.testBit i
        = if i = pin.toNat then true else s.DDR.val.testBit i) ∧
      s1.PORT = s.PORT ∧ s1.PIN = s.PIN ∧
      ∃ s2 : Port, setPinInput pin s1 = Outcome.ret true s2 ∧
        (∀ i : Nat, s2.DDR.val.testBit i
          = if i = pin.toNat then false else s.DDR.val.testBit i) ∧
        s2.PORT = s.PORT ∧ s2.PIN = s.PIN) ∧
    (∃ s1 : Port, setPinInput pin s = Outcome.ret true s1 ∧
      (∀ i : Nat, s1.DDR.val.testBit i
        = if i = pin.toNat then false else s.DDR.val.testBit i) ∧
      s1.PORT = s.PORT ∧ s1.PIN = s.PIN ∧
      ∃ s2 : Port, setPinOutput pin s1 = Outcome.ret true s2 ∧
        (∀ i : Nat, s2.DDR.val.testBit i
          = if i = pin.toNat then true else s.DDR.val.testBit i) ∧
        s2.PORT = s.PORT ∧ s2.PIN = s.PIN) := by
  obtain ⟨p, hp, rfl, hpn⟩ := valid_pin_natCast pin hpin
  rw [hpn]
  have h8 : p < 8 := by omega
  constructor
  · refine ⟨_, setPinOutput_natCast p hp s, setBit_testBit s.DDR p h8, rfl, rfl,
      _, setPinInput_natCast p hp _, ?_, rfl, rfl⟩
    intro i
    have h1 := clearBit_testBit (u8cast (int_or (s.DDR.val : Int) ((2 ^ p : Nat) : Int))) p h8 i
    have h2 := setBit_testBit s.DDR p h8 i
    by_cases hi : i = p
    · rw [h1, if_pos hi, if_pos hi]
    · rw [h1, if_neg hi, if_neg hi, h2, if_neg hi]
  · refine ⟨_, setPinInput_natCast p hp s, clearBit_testBit s.DDR p h8, rfl, rfl,
      _, setPinOutput_natCast p hp _, ?_, rfl, rfl⟩
    intro i
    have h1 := setBit_testBit
      (u8cast (int_and (s.DDR.val : Int) (int_not ((2 ^ p : Nat) : Int)))) p h8 i
    have h2 := clearBit_testBit s.DDR p h8 i
    by_cases hi : i = p
    · rw [h1, if_pos hi, if_pos hi]
    · rw [h1, if_neg hi, if_neg hi, h2, if_neg hi]

/-- Witness for C5: pin 1 with `DDR = 10`. -/
theorem setPin_direction_witness :
    ((0 : Int) ≤ 1 ∧ (1 : Int) < 5) ∧
    ((∃ s1 : Port, setPinOutput 1 { DDR := 10, PORT := 3, PIN := 6 } = Outcome.ret true s1 ∧
      (∀ i : Nat, s1.DDR.val.testBit i
        = if i = (1 : Int).toNat then true else (10 : Fin 256).val.testBit i) ∧
      s1.PORT = 3 ∧ s1.PIN = 6 ∧
      ∃ s2 : Port, setPinInput 1 s1 = Outcome.ret true s2 ∧
        (∀ i : Nat, s2.DDR.val.testBit i
          = if i = (1 : Int).toNat then false else (10 : Fin 256).val.testBit i) ∧
        s2.PORT = 3 ∧ s2.PIN = 6) ∧
    (∃ s1 : Port, setPinInput 1 { DDR := 10, PORT := 3, PIN := 6 } = Outcome.ret true s1 ∧
      (∀ i : Nat, s1.DDR.val.testBit i
        = if i = (1 : Int).toNat then false else (10 : Fin 256).val.testBit i) ∧
      s1.PORT = 3 ∧ s1.PIN = 6 ∧
      ∃ s2 : Port, setPinOutput 1 s1 = Outcome.ret true s2 ∧
        (∀ i : Nat, s2.DDR.val.testBit i
          = if i = (1 : Int).toNat then true else (10 : Fin 256).val.testBit i) ∧
        s2.PORT = 3 ∧ s2.PIN = 6)) :=
  ⟨by decide, setPin_direction { DDR := 10, PORT := 3, PIN := 6 } 1 (by decide)⟩

/-! ## Rejected arguments -/

/-- C6: evaluation at pin 256, which lies outside [0, 5).  `checkPin` reduces it to 0 and
accepts it, so none of `setPinOutput`, `setPinInput`, `writeInt`, `readInt` reaches
`exit(-1)`; each goes on to evaluate `1 << 256`, which is undefined. -/
theorem pin_256_not_fatal (s : Port) :
    checkPin 256 = true ∧
    setPinOutput 256 s = Outcome.undef ∧
    setPinInput 256 s = Outcome.undef ∧
    writeInt 256 0 s = Outcome.undef ∧
    readInt 256 s = Outcome.undef := by
  have hc : checkPin 256 = true := by decide
  have hs : int_shl 1 256 = none := by decide
  have ho : setPinOutput 256 s = Outcome.undef := by
    simp only [setPinOutput, hc, hs, if_true]
  have hi : setPinInput 256 s = Outcome.undef := by
    simp only [setPinInput, hc, hs, if_true]
  refine ⟨hc, ho, hi, ?_, ?_⟩
  · simp only [writeInt, ho]
  · simp only [readInt, hi]

/-- C7: for a valid pin, `writeInt` with data other than 0 and 1 reaches `exit(-1)`, and
`writeInt` returns exactly when data is 0 or 1. -/
theorem writeInt_rejects_data (s : Port) (pin data : Int) (hpin : 0 ≤ pin ∧ pin < 5) :
    ((data ≠ 0 ∧ data ≠ 1) → ∃ st : Port, writeInt pin data s = Outcome.fatal st) ∧
    ((∃ s' : Port, writeInt pin data s = Outcome.ret () s') ↔ (data = 0 ∨ data = 1)) := by
  obtain ⟨p, hp, rfl, _⟩ := valid_pin_natCast pin hpin
  constructor
  · rintro ⟨h0, h1⟩
    exact ⟨_, writeInt_other_natCast p hp data h0 h1 s⟩
  · constructor
    · rintro ⟨s', hs'⟩
      by_contra hne
      have h0 : data ≠ 0 := fun e => hne (Or.inl e)
      have h1 : data ≠ 1 := fun e => hne (Or.inr e)
      rw [writeInt_other_natCast p hp data h0 h1 s] at hs'
      exact Outcome.noConfusion hs'
    · rintro (rfl | rfl)
      · exact ⟨_, writeInt_zero_natCast p hp s⟩
      · exact ⟨_, writeInt_one_natCast p hp s⟩

/-- Witness for C7: pin 4 with data -3 on the registers `DDR = 1`, `PORT = 2`, `PIN = 3`. -/
theorem writeInt_rejects_data_witness :
    ((0 : Int) ≤ 4 ∧ (4 : Int) < 5) ∧
    ((((-3 : Int) ≠ 0 ∧ (-3 : Int) ≠ 1) →
        ∃ st : Port, writeInt 4 (-3) { DDR := 1, PORT := 2, PIN := 3 } = Outcome.fatal st) ∧
      ((∃ s' : Port, writeInt 4 (-3) { DDR := 1, PORT := 2, PIN := 3 } = Outcome.ret () s')
        ↔ ((-3 : Int) = 0 ∨ (-3 : Int) = 1))) :=
  ⟨by decide, writeInt_rejects_data { DDR := 1, PORT := 2, PIN := 3 } 4 (-3) (by decide)⟩

/-! ## Registers at `exit(-1)` -/

theorem accepted_shift_range (pin m : Int) (hc : checkPin pin = true)
    (hs : int_shl 1 pin = some m) : 0 ≤ pin ∧ pin < 5 := by
  rw [checkPin_eq, decide_eq_true_eq] at hc
  simp only [int_shl] at hs
  split at hs
  · omega
  · exact Option.noConfusion hs

theorem setPinOutput_fatal (s st : Port) (pin : Int)
    (h : setPinOutput pin s = Outcome.fatal st) : checkPin pin = false ∧ st = s := by
  simp only [setPinOutput] at h
  split at h
  · split at h <;> exact Outcome.noConfusion h
  · rename_i hc
    injection h with h
    exact ⟨by simpa using hc, h.symm⟩

theorem setPinInput_fatal (s st : Port) (pin : Int)
    (h : setPinInput pin s = Outcome.fatal st) : checkPin pin = false ∧ st = s := by
  simp only [setPinInput] at h
  split at h
  · split at h <;> exact Outcome.noConfusion h
  · rename_i hc
    injection h with h
    exact ⟨by simpa using hc, h.symm⟩

theorem setPinInput_ret_true (s s1 : Port) (pin : Int) (b : Bool)
    (h : setPinInput pin s = Outcome.ret b s1) : b = true := by
  simp only [setPinInput] at h
  split at h
  · split at h
    · injection h with hb _
      exact hb.symm
    · exact Outcome.noConfusion h
  · exact Outcome.noConfusion h

theorem readInt_fatal (s st : Port) (pin : Int)
    (h : readInt pin s = Outcome.fatal st) : checkPin pin = false ∧ st = s := by
  simp only [readInt] at h
  split at h
  · split at h
    · split at h
      · split at h <;> exact Outcome.noConfusion h
      · exact Outcome.noConfusion h
    · exact Outcome.noConfusion h
  · rename_i s1 hs
    exact absurd (setPinInput_ret_true s s1 pin false hs) (by decide)
  · rename_i s1 hs
    injection h with h
    subst h
    exact setPinInput_fatal s s1 pin hs
  · exact Outcome.noConfusion h

theorem writeInt_fatal (s st : Port) (pin data : Int)
    (h : writeInt pin data s = Outcome.fatal st) :
    (checkPin pin = false ∧ st = s) ∨
    ((0 ≤ pin ∧ pin < 5) ∧ (data ≠ 0 ∧ data ≠ 1) ∧
      st = { s with DDR := u8cast (int_or (s.DDR.val : Int) ((2 ^ pin.toNat : Nat) : Int)) }) := by
  by_cases hc : checkPin pin = true
  · cases hs : int_shl 1 pin with
    | none =>
      simp only [writeInt, setPinOutput, hc, hs, if_true] at h
      exact Outcome.noConfusion h
    | some m =>
      have hr := accepted_shift_range pin m hc hs
      obtain ⟨p, hp, rfl, hpn⟩ := valid_pin_natCast pin hr
      by_cases h0 : data = 0
      · subst h0
        rw [writeInt_zero_natCast p hp s] at h
        exact Outcome.noConfusion h
      · by_cases h1 : data = 1
        · subst h1
          rw [writeInt_one_natCast p hp s] at h
          exact Outcome.noConfusion h
        · rw [writeInt_other_natCast p hp data h0 h1 s] at h
          injection h with h
          right
          rw [hpn]
          exact ⟨hr, ⟨h0, h1⟩, h.symm⟩
  · have hf : checkPin pin = false := by simpa using hc
    left
    simp only [writeInt, setPinOutput, hf] at h
    injection h with h
    exact ⟨hf, h.symm⟩

/-- C8, counterexample: on a new port `writeInt(2, 5)` reaches `exit(-1)` with `DDR = 4`,
although `DDR` was 0 before the call. -/
theorem writeInt_fatal_changes_DDR :
    writeInt 2 5 newPort = Outcome.fatal { DDR := 4, PORT := 0, PIN := 0 } ∧
    ({ DDR := 4, PORT := 0, PIN := 0 } : Port).DDR ≠ newPort.DDR := by
  decide

/-- C8, amended: when `setPinOutput`, `setPinInput`, `readInt` or `writeInt` reaches
`exit(-1)`, `PORT` and `PIN` are as before the call; for a pin outside [0, 5) `DDR` is as
before the call too; for a pin inside [0, 5) (which only `writeInt` with data other than 0
and 1 can reach `exit(-1)` with) bit `pin` of `DDR` is set and its other bits are as
before. -/
theorem fatal_registers (s st : Port) (pin data : Int)
    (h : setPinOutput pin s = Outcome.fatal st ∨ setPinInput pin s = Outcome.fatal st ∨
      readInt pin s = Outcome.fatal st ∨ writeInt pin data s = Outcome.fatal st) :
    st.PORT = s.PORT ∧ st.PIN = s.PIN ∧
    ((pin < 0 ∨ 5 ≤ pin) → st.DDR = s.DDR) ∧
    ((0 ≤ pin ∧ pin < 5) →
      (data ≠ 0 ∧ data ≠ 1) ∧ writeInt pin data s = Outcome.fatal st ∧
      ∀ i : Nat, st.DDR.val.testBit i
        = if i = pin.toNat then true else s.DDR.val.testBit i) := by
  have key : (checkPin pin = false ∧ st = s) ∨
      ((0 ≤ pin ∧ pin < 5) ∧ (data ≠ 0 ∧ data ≠ 1) ∧ writeInt pin data s = Outcome.fatal st ∧
        st = { s with
          DDR := u8cast (int_or (s.DDR.val : Int) ((2 ^ pin.toNat : Nat) : Int)) }) := by
    rcases h with h | h | h | h
    · exact Or.inl (setPinOutput_fatal s st pin h)
    · exact Or.inl (setPinInput_fatal s st pin h)
    · exact Or.inl (readInt_fatal s st pin h)
    · rcases writeInt_fatal s st pin data h with h' | ⟨hr, hd, hst⟩
      · exact Or.inl h'
      · exact Or.inr ⟨hr, hd, h, hst⟩
  rcases key with ⟨hc, rfl⟩ | ⟨hr, hd, hw, rfl⟩
  · refine ⟨rfl, rfl, fun _ => rfl, fun hr => ?_⟩
    obtain ⟨p, hp, rfl, _⟩ := valid_pin_natCast pin hr
    rw [checkPin_natCast p hp] at hc
    exact Bool.noConfusion hc
  · refine ⟨rfl, rfl, fun hout => ?_, fun _ => ⟨hd, hw, ?_⟩⟩
    · omega
    · intro i
      exact setBit_testBit s.DDR pin.toNat (by omega) i

/-- Witness for C8, amended: `writeInt(2, 5)` on a new port. -/
theorem fatal_registers_witness :
    (setPinOutput 2 newPort = Outcome.fatal { DDR := 4, PORT := 0, PIN := 0 } ∨
      setPinInput 2 newPort = Outcome.fatal { DDR := 4, PORT := 0, PIN := 0 } ∨
      readInt 2 newPort = Outcome.fatal { DDR := 4, PORT := 0, PIN := 0 } ∨
      writeInt 2 5 newPort = Outcome.fatal { DDR := 4, PORT := 0, PIN := 0 }) ∧
    (({ DDR := 4, PORT := 0, PIN := 0 } : Port).PORT = newPort.PORT ∧
      ({ DDR := 4, PORT := 0, PIN := 0 } : Port).PIN = newPort.PIN ∧
      (((2 : Int) < 0 ∨ (5 : Int) ≤ 2) →
        ({ DDR := 4, PORT := 0, PIN := 0 } : Port).DDR = newPort.DDR) ∧
      (((0 : Int) ≤ 2 ∧ (2 : Int) < 5) →
        ((5 : Int) ≠ 0 ∧ (5 : Int) ≠ 1) ∧
        writeInt 2 5 newPort = Outcome.fatal { DDR := 4, PORT := 0, PIN := 0 } ∧
        ∀ i : Nat, ({ DDR := 4, PORT := 0, PIN := 0 } : Port).DDR.val.testBit i
          = if i = (2 : Int).toNat then true else newPort.DDR.val.testBit i)) :=
  ⟨Or.inr (Or.inr (Or.inr (by decide))),
    fatal_registers newPort { DDR := 4, PORT := 0, PIN := 0 } 2 5
      (Or.inr (Or.inr (Or.inr (by decide))))⟩

/-! ## Port-level write against port-level read -/

/-- C9: `readPort` after `writePort` returns `PIN & 0b00011111` of the registers before the
write, whatever was written; that is also what `readPort` returns without the write. -/
theorem readPort_ignores_writePort (s : Port) (d1 d2 : Int) :
    (readPort (writePort d1 s)).1 = (readPort (writePort d2 s)).1 ∧
    (readPort (writePort d1 s)).1 = ((s.PIN.val &&& 31 : Nat) : Int) ∧
    (readPort s).1 = ((s.PIN.val &&& 31 : Nat) : Int) := by
  have hx := s.PIN.isLt
  have hm : PORT_WIDTH_BITMASK = ((31 : Nat) : Int) := rfl
  have hr : ∀ t : Port, (readPort t).1 = ((t.PIN.val &&& 31 : Nat) : Int) := by
    intro t
    have ht := t.PIN.isLt
    have hs : (setPortInput t).PIN = t.PIN := rfl
    simp only [readPort, hs]
    rw [hm, int_and_natCast _ _ (by omega) (by omega)]
  have hw : ∀ d : Int, (writePort d s).PIN = s.PIN := fun _ => rfl
  refine ⟨?_, ?_, hr s⟩
  · rw [hr, hr, hw, hw]
  · rw [hr, hw]

/-! ## Boolean wrappers -/

/-- C10: for a valid pin, `write` returns and acts as `writeInt` with 1 for `true` and 0 for
`false`; `read` leaves the registers `readInt` leaves and returns `true` exactly when
`readInt` returns a non-zero value; in `write(pin, b); read(pin)` bit `pin` of `DDR` is 1
after the write and 0 after the read, and bit `pin` of `PORT` is still `b` after the
read. -/
theorem write_read_wrappers (s : Port) (pin : Int) (b : Bool) (hpin : 0 ≤ pin ∧ pin < 5) :
    write pin true s = writeInt pin 1 s ∧
    write pin false s = writeInt pin 0 s ∧
    (∃ (r : Int) (s' : Port), readInt pin s = Outcome.ret r s' ∧
      read pin s = Outcome.ret (decide (r ≠ 0)) s') ∧
    (∃ s1 : Port, write pin b s = Outcome.ret () s1 ∧
      s1.DDR.val.testBit pin.toNat = true ∧
      ∃ (v : Bool) (s2 : Port), read pin s1 = Outcome.ret v s2 ∧
        s2.DDR.val.testBit pin.toNat = false ∧
        s2.PORT.val.testBit pin.toNat = b) := by
  have hread : ∀ t : Port, ∃ (r : Int) (s' : Port), readInt pin t = Outcome.ret r s' ∧
      read pin t = Outcome.ret (decide (r ≠ 0)) s' ∧
      s'.DDR.val.testBit pin.toNat = false ∧ s'.PORT = t.PORT := by
    intro t
    obtain ⟨r, s', hr, _, _, hD, hP, _⟩ := readInt_post t pin hpin
    refine ⟨r, s', hr, ?_, ?_, hP⟩
    · simp only [read, hr]
      by_cases h0 : r = 0 <;> simp [h0]
    · rw [hD, if_pos rfl]
  refine ⟨rfl, rfl, ?_, ?_⟩
  · obtain ⟨r, s', hr, hrd, _, _⟩ := hread s
    exact ⟨r, s', hr, hrd⟩
  · have hval : (if b then (1 : Int) else 0) = 0 ∨ (if b then (1 : Int) else 0) = 1 := by
      cases b
      · exact Or.inl rfl
      · exact Or.inr rfl
    obtain ⟨s1, hw, hP, hD, _⟩ := writeInt_post s pin (if b then 1 else 0) hpin hval
    obtain ⟨r, s2, _, hrd, hD2, hP2⟩ := hread s1
    refine ⟨s1, hw, ?_, _, s2, hrd, hD2, ?_⟩
    · rw [hD, if_pos rfl]
    · rw [hP2, hP, if_pos rfl]
      cases b <;> decide

/-- Witness for C10: pin 0, `b = true`, registers `DDR = 0`, `PORT = 30`, `PIN = 1`. -/
theorem write_read_wrappers_witness :
    ((0 : Int) ≤ 0 ∧ (0 : Int) < 5) ∧
    (write 0 true { DDR := 0, PORT := 30, PIN := 1 }
        = writeInt 0 1 { DDR := 0, PORT := 30, PIN := 1 } ∧
      write 0 false { DDR := 0, PORT := 30, PIN := 1 }
        = writeInt 0 0 { DDR := 0, PORT := 30, PIN := 1 } ∧
      (∃ (r : Int) (s' : Port), readInt 0 { DDR := 0, PORT := 30, PIN := 1 } = Outcome.ret r s' ∧
        read 0 { DDR := 0, PORT := 30, PIN := 1 } = Outcome.ret (decide (r ≠ 0)) s') ∧
      (∃ s1 : Port, write 0 true { DDR := 0, PORT := 30, PIN := 1 } = Outcome.ret () s1 ∧
        s1.DDR.val.testBit (0 : Int).toNat = true ∧
        ∃ (v : Bool) (s2 : Port), read 0 s1 = Outcome.ret v s2 ∧
          s2.DDR.val.testBit (0 : Int).toNat = false ∧
          s2.PORT.val.testBit (0 : Int).toNat = true)) :=
  ⟨by decide, write_read_wrappers { DDR := 0, PORT := 30, PIN := 1 } 0 true (by decide)⟩

/-! ## Whole-port direction -/

theorem port_ext_bits (a b : Port)
    (hD : ∀ i : Nat, a.DDR.val.testBit i = b.DDR.val.testBit i)
    (hP : ∀ i : Nat, a.PORT.val.testBit i = b.PORT.val.testBit i)
    (hI : a.PIN = b.PIN) : a = b := by
  cases a with
  | mk aD aP aI =>
    cases b with
    | mk bD bP bI =>
      have h1 : aD = bD := Fin.ext (Nat.eq_of_testBit_eq hD)
      have h2 : aP = bP := Fin.ext (Nat.eq_of_testBit_eq hP)
      simp only at hI
      rw [h1, h2, hI]

theorem setPortOutput_DDR_testBit (s : Port) (i : Nat) :
    (setPortOutput s).DDR.val.testBit i = if i < 5 then true else s.DDR.val.testBit i := by
  have hD : (setPortOutput s).DDR.val = s.DDR.val ||| 31 := setMask_val s.DDR
  rw [hD, or_31_testBit]

theorem setPortInput_DDR_testBit (s : Port) (i : Nat) :
    (setPortInput s).DDR.val.testBit i = if i < 5 then false else s.DDR.val.testBit i := by
  have hD : (setPortInput s).DDR.val = s.DDR.val &&& 224 := clearMask_val s.DDR
  rw [hD, and_224_testBit]

/-- C11: `setPortOutput` called twice leaves the registers (`DDR` in particular) that a
single call leaves. -/
theorem setPortOutput_idempotent (s : Port) :
    (setPortOutput (setPortOutput s)).DDR = (setPortOutput s).DDR ∧
    setPortOutput (setPortOutput s) = setPortOutput s := by
  have h : setPortOutput (setPortOutput s) = setPortOutput s := by
    apply port_ext_bits
    · intro i
      rw [setPortOutput_DDR_testBit, setPortOutput_DDR_testBit]
      by_cases hi : i < 5 <;> simp [hi]
    · intro i
      rfl
    · rfl
  exact ⟨by rw [h], h⟩

/-! ## The pin test -/

theorem not_fatal_of_checkPin (pin : Int) (s st : Port) (hc : checkPin pin = true) :
    setPinOutput pin s ≠ Outcome.fatal st ∧ setPinInput pin s ≠ Outcome.fatal st := by
  constructor
  · intro h
    have h' := (setPinOutput_fatal s st pin h).1
    rw [hc] at h'
    exact Bool.noConfusion h'
  · intro h
    have h' := (setPinInput_fatal s st pin h).1
    rw [hc] at h'
    exact Bool.noConfusion h'

/-- C18: `checkPin` reduces its argument modulo 256 before the range test, so it returns
`true` exactly when `pin mod 256 < 5`.  The pins 256 and -252, both outside [0, 5), are
accepted, and `setPinOutput` and `setPinInput` do not reach `exit(-1)` for them. -/
theorem checkPin_truncates (s st : Port) :
    (∀ pin : Int, checkPin pin = true ↔ pin % 256 < 5) ∧
    (¬ (0 ≤ (256 : Int) ∧ (256 : Int) < 5) ∧ checkPin 256 = true ∧
      setPinOutput 256 s ≠ Outcome.fatal st ∧ setPinInput 256 s ≠ Outcome.fatal st) ∧
    (¬ (0 ≤ (-252 : Int) ∧ (-252 : Int) < 5) ∧ checkPin (-252) = true ∧
      setPinOutput (-252) s ≠ Outcome.fatal st ∧ setPinInput (-252) s ≠ Outcome.fatal st) := by
  have h256 : checkPin 256 = true := by decide
  have h252 : checkPin (-252) = true := by decide
  refine ⟨?_, ⟨by decide, h256, not_fatal_of_checkPin 256 s st h256⟩,
    ⟨by decide, h252, not_fatal_of_checkPin (-252) s st h252⟩⟩
  intro pin
  rw [checkPin_eq, decide_eq_true_eq]

/-! ## Calls that return -/

theorem setPinOutput_ret (s s1 : Port) (pin : Int) (b : Bool)
    (h : setPinOutput pin s = Outcome.ret b s1) : 0 ≤ pin ∧ pin < 5 := by
  by_cases hc : checkPin pin = true
  · cases hs : int_shl 1 pin with
    | none =>
      simp only [setPinOutput, hc, hs, if_true] at h
      exact Outcome.noConfusion h
    | some m => exact accepted_shift_range pin m hc hs
  · have hf : checkPin pin = false := by simpa using hc
    simp only [setPinOutput, hf] at h
    exact Outcome.noConfusion h

theorem setPinInput_ret (s s1 : Port) (pin : Int) (b : Bool)
    (h : setPinInput pin s = Outcome.ret b s1) : 0 ≤ pin ∧ pin < 5 := by
  by_cases hc : checkPin pin = true
  · cases hs : int_shl 1 pin with
    | none =>
      simp only [setPinInput, hc, hs, if_true] at h
      exact Outcome.noConfusion h
    | some m => exact accepted_shift_range pin m hc hs
  · have hf : checkPin pin = false := by simpa using hc
    simp only [setPinInput, hf] at h
    exact Outcome.noConfusion h

theorem writeInt_ret (s s1 : Port) (pin data : Int)
    (h : writeInt pin data s = Outcome.ret () s1) :
    (0 ≤ pin ∧ pin < 5) ∧ (data = 0 ∨ data = 1) := by
  by_cases hc : checkPin pin = true
  · cases hs : int_shl 1 pin with
    | none =>
      simp only [writeInt, setPinOutput, hc, hs, if_true] at h
      exact Outcome.noConfusion h
    | some m =>
      have hr := accepted_shift_range pin m hc hs
      refine ⟨hr, ?_⟩
      obtain ⟨p, hp, rfl, _⟩ := valid_pin_natCast pin hr
      by_contra hne
      have h0 : data ≠ 0 := fun e => hne (Or.inl e)
      have h1 : data ≠ 1 := fun e => hne (Or.inr e)
      rw [writeInt_other_natCast p hp data h0 h1 s] at h
      exact Outcome.noConfusion h
  · have hf : checkPin pin = false := by simpa using hc
    simp only [writeInt, setPinOutput, hf] at h
    exact Outcome.noConfusion h

theorem readInt_ret (s s1 : Port) (pin r : Int)
    (h : readInt pin s = Outcome.ret r s1) : 0 ≤ pin ∧ pin < 5 := by
  by_cases hc : checkPin pin = true
  · cases hs : int_shl 1 pin with
    | none =>
      simp only [readInt, setPinInput, hc, hs, if_true] at h
      exact Outcome.noConfusion h
    | some m => exact accepted_shift_range pin m hc hs
  · have hf : checkPin pin = false := by simpa using hc
    simp only [readInt, setPinInput, hf] at h
    exact Outcome.noConfusion h

theorem read_natCast (p : Nat) (hp : p < 5) (s : Port) :
    read (p : Int) s
      = Outcome.ret (s.PIN.val.testBit p)
          { s with DDR := u8cast (int_and (s.DDR.val : Int) (int_not ((2 ^ p : Nat) : Int))) } := by
  simp only [read, readInt_natCast p hp s]
  cases s.PIN.val.testBit p <;> rfl

theorem read_ret (s s1 : Port) (pin : Int) (b : Bool)
    (h : read pin s = Outcome.ret b s1) : 0 ≤ pin ∧ pin < 5 := by
  cases hr : readInt pin s with
  | ret v s2 => exact readInt_ret s s2 pin v hr
  | fatal s2 =>
    simp only [read, hr] at h
    exact Outcome.noConfusion h
  | undef =>
    simp only [read, hr] at h
    exact Outcome.noConfusion h

theorem state_eq_some {α : Type} (o : Outcome α) (s1 : Port) (h : o.state = some s1) :
    ∃ v : α, o = Outcome.ret v s1 := by
  cases o with
  | ret v st =>
    simp only [Outcome.state, Option.some.injEq] at h
    exact ⟨v, by rw [h]⟩
  | fatal st => exact Option.noConfusion h
  | undef => exact Option.noConfusion h

/-! ## Register bounds -/

theorem setBit_le (x : Fin 256) (p : Nat) (hp : p < 5) (hx : x.val ≤ 31) :
    (u8cast (int_or (x.val : Int) ((2 ^ p : Nat) : Int))).val ≤ 31 := by
  have h2 : (2 : Nat) ^ p < 2 ^ 5 := Nat.pow_lt_pow_right (by decide) hp
  have hor : x.val ||| 2 ^ p < 2 ^ 5 := Nat.or_lt_two_pow (by omega) h2
  rw [setBit_val x p (by omega)]
  omega

theorem clearBit_le (x : Fin 256) (p : Nat) (hp : p < 5) :
    (u8cast (int_and (x.val : Int) (int_not ((2 ^ p : Nat) : Int)))).val ≤ x.val := by
  rw [clearBit_val x p (by omega)]
  exact Nat.and_le_left

theorem setMask_le (x : Fin 256) (hx : x.val ≤ 31) :
    (u8cast (int_or (x.val : Int) PORT_WIDTH_BITMASK)).val ≤ 31 := by
  have hor : x.val ||| 31 < 2 ^ 5 := Nat.or_lt_two_pow (by omega) (by decide)
  rw [setMask_val]
  omega

theorem clearMask_le (x : Fin 256) :
    (u8cast (int_and (x.val : Int) (int_not PORT_WIDTH_BITMASK))).val ≤ x.val := by
  rw [clearMask_val]
  exact Nat.and_le_left

theorem writePort_PORT_le (data : Int) (s : Port) (hx : s.PORT.val ≤ 31) :
    (writePort data s).PORT.val ≤ 31 := by
  have hd : (data % 32).toNat < 32 := by omega
  rw [writePort_PORT_val, and_224_eq, ← add_eq_or_low _ _ hd]
  omega

/-- What every returning call guarantees: `PIN` is kept, and a bound of 31 on `DDR` or on
`PORT` is kept. -/
theorem callOp_keeps (op : Op) (s s1 : Port) (h : callOp op s = some s1) :
    s1.PIN = s.PIN ∧ (s.DDR.val ≤ 31 → s1.DDR.val ≤ 31) ∧
      (s.PORT.val ≤ 31 → s1.PORT.val ≤ 31) := by
  cases op with
  | setPortOutput =>
    simp only [callOp, Option.some.injEq] at h
    subst h
    exact ⟨rfl, setMask_le s.DDR, fun hP => hP⟩
  | setPortInput =>
    simp only [callOp, Option.some.injEq] at h
    subst h
    exact ⟨rfl, fun hD => Nat.le_trans (clearMask_le s.DDR) hD, fun hP => hP⟩
  | setPinOutput pin =>
    obtain ⟨v, hv⟩ := state_eq_some _ s1 h
    obtain ⟨p, hp, rfl, _⟩ := valid_pin_natCast pin (setPinOutput_ret s s1 pin v hv)
    rw [setPinOutput_natCast p hp s] at hv
    injection hv with _ hs
    subst hs
    exact ⟨rfl, setBit_le s.DDR p hp, fun hP => hP⟩
  | setPinInput pin =>
    obtain ⟨v, hv⟩ := state_eq_some _ s1 h
    obtain ⟨p, hp, rfl, _⟩ := valid_pin_natCast pin (setPinInput_ret s s1 pin v hv)
    rw [setPinInput_natCast p hp s] at hv
    injection hv with _ hs
    subst hs
    exact ⟨rfl, fun hD => Nat.le_trans (clearBit_le s.DDR p hp) hD, fun hP => hP⟩
  | writePort data =>
    simp only [callOp, Option.some.injEq] at h
    subst h
    exact ⟨rfl, setMask_le s.DDR, writePort_PORT_le data s⟩
  | readPort =>
    simp only [callOp, Option.some.injEq] at h
    subst h
    exact ⟨rfl, fun hD => Nat.le_trans (clearMask_le s.DDR) hD, fun hP => hP⟩
  | write pin data =>
    obtain ⟨v, hv⟩ := state_eq_some _ s1 h
    obtain ⟨hr, hd⟩ := writeInt_ret s s1 pin _ hv
    obtain ⟨p, hp, rfl, _⟩ := valid_pin_natCast pin hr
    cases data with
    | false =>
      simp only [write, Bool.false_eq_true, if_false] at hv
      rw [writeInt_zero_natCast p hp s] at hv
      injection hv with _ hs
      subst hs
      exact ⟨rfl, setBit_le s.DDR p hp, fun hP => Nat.le_trans (clearBit_le s.PORT p hp) hP⟩
    | true =>
      simp only [write, if_true] at hv
      rw [writeInt_one_natCast p hp s] at hv
      injection hv with _ hs
      subst hs
      exact ⟨rfl, setBit_le s.DDR p hp, setBit_le s.PORT p hp⟩
  | read pin =>
    obtain ⟨v, hv⟩ := state_eq_some _ s1 h
    obtain ⟨p, hp, rfl, _⟩ := valid_pin_natCast pin (read_ret s s1 pin v hv)
    rw [read_natCast p hp s] at hv
    injection hv with _ hs
    subst hs
    exact ⟨rfl, fun hD => Nat.le_trans (clearBit_le s.DDR p hp) hD, fun hP => hP⟩
  | writeInt pin data =>
    obtain ⟨v, hv⟩ := state_eq_some _ s1 h
    obtain ⟨hr, hd⟩ := writeInt_ret s s1 pin data hv
    obtain ⟨p, hp, rfl, _⟩ := valid_pin_natCast pin hr
    rcases hd with rfl | rfl
    · rw [writeInt_zero_natCast p hp s] at hv
      injection hv with _ hs
      subst hs
      exact ⟨rfl, setBit_le s.DDR p hp, fun hP => Nat.le_trans (clearBit_le s.PORT p hp) hP⟩
    · rw [writeInt_one_natCast p hp s] at hv
      injection hv with _ hs
      subst hs
      exact ⟨rfl, setBit_le s.DDR p hp, setBit_le s.PORT p hp⟩
  | readInt pin =>
    obtain ⟨v, hv⟩ := state_eq_some _ s1 h
    obtain ⟨p, hp, rfl, _⟩ := valid_pin_natCast pin (readInt_ret s s1 pin v hv)
    rw [readInt_natCast p hp s] at hv
    injection hv with _ hs
    subst hs
    exact ⟨rfl, fun hD => Nat.le_trans (clearBit_le s.DDR p hp) hD, fun hP => hP⟩

theorem callOp_of_validArgs (op : Op) (s : Port) (h : validArgs op = true) :
    ∃ s1 : Port, callOp op s = some s1 := by
  cases op with
  | setPortOutput => exact ⟨_, rfl⟩
  | setPortInput => exact ⟨_, rfl⟩
  | setPinOutput pin =>
    simp only [validArgs, decide_eq_true_eq] at h
    obtain ⟨p, hp, rfl, _⟩ := valid_pin_natCast pin h
    exact ⟨_, by simp only [callOp, setPinOutput_natCast p hp s, Outcome.state]; rfl⟩
  | setPinInput pin =>
    simp only [validArgs, decide_eq_true_eq] at h
    obtain ⟨p, hp, rfl, _⟩ := valid_pin_natCast pin h
    exact ⟨_, by simp only [callOp, setPinInput_natCast p hp s, Outcome.state]; rfl⟩
  | writePort data => exact ⟨_, rfl⟩
  | readPort => exact ⟨_, rfl⟩
  | write pin data =>
    simp only [validArgs, decide_eq_true_eq] at h
    obtain ⟨p, hp, rfl, _⟩ := valid_pin_natCast pin h
    cases data with
    | false =>
      exact ⟨_, by
        simp only [callOp, write, Bool.false_eq_true, if_false, writeInt_zero_natCast p hp s,
          Outcome.state]
        rfl⟩
    | true =>
      exact ⟨_, by
        simp only [callOp, write, if_true, writeInt_one_natCast p hp s, Outcome.state]
        rfl⟩
  | read pin =>
    simp only [validArgs, decide_eq_true_eq] at h
    obtain ⟨p, hp, rfl, _⟩ := valid_pin_natCast pin h
    exact ⟨_, by simp only [callOp, read_natCast p hp s, Outcome.state]; rfl⟩
  | writeInt pin data =>
    simp only [validArgs, Bool.and_eq_true, decide_eq_true_eq] at h
    obtain ⟨hr, hd⟩ := h
    obtain ⟨p, hp, rfl, _⟩ := valid_pin_natCast pin hr
    rcases hd with rfl | rfl
    · exact ⟨_, by simp only [callOp, writeInt_zero_natCast p hp s, Outcome.state]; rfl⟩
    · exact ⟨_, by simp only [callOp, writeInt_one_natCast p hp s, Outcome.state]; rfl⟩
  | readInt pin =>
    simp only [validArgs, decide_eq_true_eq] at h
    obtain ⟨p, hp, rfl, _⟩ := valid_pin_natCast pin h
    exact ⟨_, by simp only [callOp, readInt_natCast p hp s, Outcome.state]; rfl⟩

theorem runOps_cons (op : Op) (rest : List Op) (s s1 : Port) (h : callOp op s = some s1) :
    runOps (op :: rest) s = runOps rest s1 := by
  simp only [runOps, h]

theorem runOps_cons_some (op : Op) (rest : List Op) (s s2 : Port)
    (h : runOps (op :: rest) s = some s2) :
    ∃ s1 : Port, callOp op s = some s1 ∧ runOps rest s1 = some s2 := by
  cases hc : callOp op s with
  | none =>
    simp only [runOps, hc] at h
    exact Option.noConfusion h
  | some s1 =>
    rw [runOps_cons op rest s s1 hc] at h
    exact ⟨s1, rfl, h⟩

theorem runOps_keeps (ops : List Op) (s s2 : Port) (h : runOps ops s = some s2) :
    s2.PIN = s.PIN ∧ (s.DDR.val ≤ 31 → s2.DDR.val ≤ 31) ∧
      (s.PORT.val ≤ 31 → s2.PORT.val ≤ 31) := by
  induction ops generalizing s with
  | nil =>
    simp only [runOps, Option.some.injEq] at h
    subst h
    exact ⟨rfl, fun hD => hD, fun hP => hP⟩
  | cons op rest ih =>
    obtain ⟨s1, hc, hrest⟩ := runOps_cons_some op rest s s2 h
    obtain ⟨hI, hD, hP⟩ := callOp_keeps op s s1 hc
    obtain ⟨hI2, hD2, hP2⟩ := ih s1 hrest
    exact ⟨hI2.trans hI, fun hd => hD2 (hD hd), fun hp => hP2 (hP hp)⟩

theorem runOps_of_validArgs (ops : List Op) (s : Port)
    (h : ∀ op ∈ ops, validArgs op = true) : ∃ s2 : Port, runOps ops s = some s2 := by
  induction ops generalizing s with
  | nil => exact ⟨s, rfl⟩
  | cons op rest ih =>
    obtain ⟨s1, hc⟩ := callOp_of_validArgs op s (h op (List.mem_cons_self op rest))
    obtain ⟨s2, h2⟩ := ih s1 (fun o ho => h o (List.mem_cons_of_mem op ho))
    exact ⟨s2, by rw [runOps_cons op rest s s1 hc, h2]⟩

/-! ## Invariants of a port that starts from construction -/

/-- C12: a new port has all three registers zero and no returning call changes `PIN`; so in
every state reached from a new port by calls that return, `readInt` returns 0 and `read`
returns `false` for every valid pin, and `readPort` returns 0.  On a new port `readInt(3)`
returns 0 and leaves bit 3 of `DDR` cleared. -/
theorem new_port_reads_zero (ops : List Op) (s : Port) (pin : Int)
    (hreach : runOps ops newPort = some s) (hpin : 0 ≤ pin ∧ pin < 5) :
    (newPort.DDR = 0 ∧ newPort.PORT = 0 ∧ newPort.PIN = 0) ∧
    (∀ (op : Op) (t t1 : Port), callOp op t = some t1 → t1.PIN = t.PIN) ∧
    s.PIN = 0 ∧
    (∃ s1 : Port, readInt pin s = Outcome.ret 0 s1) ∧
    (∃ s1 : Port, read pin s = Outcome.ret false s1) ∧
    (readPort s).1 = 0 ∧
    (∃ s1 : Port, readInt 3 newPort = Outcome.ret 0 s1 ∧ s1.DDR.val.testBit 3 = false) := by
  have hI : s.PIN = 0 := (runOps_keeps ops newPort s hreach).1
  obtain ⟨p, hp, rfl, _⟩ := valid_pin_natCast pin hpin
  refine ⟨⟨rfl, rfl, rfl⟩, fun op t t1 h => (callOp_keeps op t t1 h).1, hI, ?_, ?_, ?_,
    ⟨{ DDR := 0, PORT := 0, PIN := 0 }, by decide, by decide⟩⟩
  · refine ⟨{ s with
      DDR := u8cast (int_and (s.DDR.val : Int) (int_not ((2 ^ p : Nat) : Int))) }, ?_⟩
    rw [readInt_natCast p hp s, hI]
    simp
  · refine ⟨{ s with
      DDR := u8cast (int_and (s.DDR.val : Int) (int_not ((2 ^ p : Nat) : Int))) }, ?_⟩
    rw [read_natCast p hp s, hI]
    simp
  · have hs : (setPortInput s).PIN = s.PIN := rfl
    simp only [readPort, hs, hI]
    decide

/-- Witness for C12: the state after `writeInt(2, 1); setPortOutput(); readPort();
write(4, true)` on a new port, read at pin 2. -/
theorem new_port_reads_zero_witness :
    runOps [Op.writeInt 2 1, Op.setPortOutput, Op.readPort, Op.write 4 true] newPort
      = some { DDR := 16, PORT := 20, PIN := 0 } ∧
    ((0 : Int) ≤ 2 ∧ (2 : Int) < 5) ∧
    ((newPort.DDR = 0 ∧ newPort.PORT = 0 ∧ newPort.PIN = 0) ∧
      (∀ (op : Op) (t t1 : Port), callOp op t = some t1 → t1.PIN = t.PIN) ∧
      ({ DDR := 16, PORT := 20, PIN := 0 } : Port).PIN = 0 ∧
      (∃ s1 : Port, readInt 2 { DDR := 16, PORT := 20, PIN := 0 } = Outcome.ret 0 s1) ∧
      (∃ s1 : Port, read 2 { DDR := 16, PORT := 20, PIN := 0 } = Outcome.ret false s1) ∧
      (readPort { DDR := 16, PORT := 20, PIN := 0 }).1 = 0 ∧
      (∃ s1 : Port, readInt 3 newPort = Outcome.ret 0 s1 ∧ s1.DDR.val.testBit 3 = false)) :=
  ⟨by decide, by decide,
    new_port_reads_zero [Op.writeInt 2 1, Op.setPortOutput, Op.readPort, Op.write 4 true]
      { DDR := 16, PORT := 20, PIN := 0 } 2 (by decide) (by decide)⟩

/-- C13: every sequence of calls with pins in [0, 5) and bit values in {0, 1} returns on a
new port, and in every state reached from a new port by calls that return, `DDR`, `PORT`
and `PIN` are at most 31 (bits 5 to 7 are zero). -/
theorem high_bits_zero (ops : List Op) (hargs : ∀ op ∈ ops, validArgs op = true) :
    (∃ s : Port, runOps ops newPort = some s ∧
      s.DDR.val ≤ 31 ∧ s.PORT.val ≤ 31 ∧ s.PIN.val ≤ 31) ∧
    (∀ (calls : List Op) (s : Port), runOps calls newPort = some s →
      s.DDR.val ≤ 31 ∧ s.PORT.val ≤ 31 ∧ s.PIN.val ≤ 31) := by
  have hall : ∀ (calls : List Op) (s : Port), runOps calls newPort = some s →
      s.DDR.val ≤ 31 ∧ s.PORT.val ≤ 31 ∧ s.PIN.val ≤ 31 := by
    intro calls s h
    obtain ⟨hI, hD, hP⟩ := runOps_keeps calls newPort s h
    refine ⟨hD (by decide), hP (by decide), ?_⟩
    rw [hI]
    decide
  obtain ⟨s, hs⟩ := runOps_of_validArgs ops newPort hargs
  exact ⟨⟨s, hs, hall ops s hs⟩, hall⟩

/-- Witness for C13: `writePort(-1); setPinInput(3); writeInt(0, 0); read(4)` on a new
port. -/
theorem high_bits_zero_witness :
    (∀ op ∈ [Op.writePort (-1), Op.setPinInput 3, Op.writeInt 0 0, Op.read 4],
      validArgs op = true) ∧
    ((∃ s : Port,
        runOps [Op.writePort (-1), Op.setPinInput 3, Op.writeInt 0 0, Op.read 4] newPort
          = some s ∧
        s.DDR.val ≤ 31 ∧ s.PORT.val ≤ 31 ∧ s.PIN.val ≤ 31) ∧
      (∀ (calls : List Op) (s : Port), runOps calls newPort = some s →
        s.DDR.val ≤ 31 ∧ s.PORT.val ≤ 31 ∧ s.PIN.val ≤ 31)) :=
  ⟨by decide,
    high_bits_zero [Op.writePort (-1), Op.setPinInput 3, Op.writeInt 0 0, Op.read 4]
      (by decide)⟩

/-! ## Pin-level calls against port-level calls -/

theorem testBit_low (data : Int) (i : Nat) (hi : i < 5) :
    (data % 32).toNat.testBit i = decide (data / 2 ^ i % 2 = 1) := by
  rw [Nat.testBit_to_div_mod, decide_eq_decide]
  interval_cases i <;> norm_num <;> omega

theorem testBit_low_high (data : Int) (i : Nat) (hi : 5 ≤ i) :
    (data % 32).toNat.testBit i = false := by
  apply Nat.testBit_lt_two_pow
  have h32 : (2 : Nat) ^ 5 ≤ 2 ^ i := Nat.pow_le_pow_right (by decide) hi
  have hd : (data % 32).toNat < 32 := by omega
  omega

theorem writePort_PORT_testBit (data : Int) (s : Port) (i : Nat) :
    (writePort data s).PORT.val.testBit i
      = if i < 5 then decide (data / 2 ^ i % 2 = 1) else s.PORT.val.testBit i := by
  rw [writePort_PORT_val, Nat.testBit_or, and_224_testBit]
  by_cases hi : i < 5
  · rw [if_pos hi, if_pos hi, testBit_low data i hi, Bool.false_or]
  · rw [if_neg hi, if_neg hi, testBit_low_high data i (by omega), Bool.or_false]

/-- C14: `writePort(data)` leaves the registers that `writeInt(0, b0); writeInt(1, b1);
writeInt(2, b2); writeInt(3, b3); writeInt(4, b4)` leaves, where `bi` is bit `i` of `data`;
each of the five calls returns. -/
theorem writePort_eq_writeInt_chain (s : Port) (data : Int) :
    ∃ s1 s2 s3 s4 : Port,
      writeInt 0 (data % 2) s = Outcome.ret () s1 ∧
      writeInt 1 (data / 2 % 2) s1 = Outcome.ret () s2 ∧
      writeInt 2 (data / 4 % 2) s2 = Outcome.ret () s3 ∧
      writeInt 3 (data / 8 % 2) s3 = Outcome.ret () s4 ∧
      writeInt 4 (data / 16 % 2) s4 = Outcome.ret () (writePort data s) := by
  obtain ⟨s1, h1, hP1, hD1, hI1⟩ := writeInt_post s 0 (data % 2) (by decide) (by omega)
  obtain ⟨s2, h2, hP2, hD2, hI2⟩ := writeInt_post s1 1 (data / 2 % 2) (by decide) (by omega)
  obtain ⟨s3, h3, hP3, hD3, hI3⟩ := writeInt_post s2 2 (data / 4 % 2) (by decide) (by omega)
  obtain ⟨s4, h4, hP4, hD4, hI4⟩ := writeInt_post s3 3 (data / 8 % 2) (by decide) (by omega)
  obtain ⟨s5, h5, hP5, hD5, hI5⟩ := writeInt_post s4 4 (data / 16 % 2) (by decide) (by omega)
  have e0 : (0 : Int).toNat = 0 := rfl
  have e1 : (1 : Int).toNat = 1 := rfl
  have e2 : (2 : Int).toNat = 2 := rfl
  have e3 : (3 : Int).toNat = 3 := rfl
  have e4 : (4 : Int).toNat = 4 := rfl
  rw [e0] at hP1 hD1
  rw [e1] at hP2 hD2
  rw [e2] at hP3 hD3
  rw [e3] at hP4 hD4
  rw [e4] at hP5 hD5
  have hs : s5 = writePort data s := by
    apply port_ext_bits
    · intro i
      have hw : (writePort data s).DDR.val.testBit i
          = if i < 5 then true else s.DDR.val.testBit i := setPortOutput_DDR_testBit s i
      rw [hw, hD5, hD4, hD3, hD2, hD1]
      have hcases : i = 0 ∨ i = 1 ∨ i = 2 ∨ i = 3 ∨ i = 4 ∨ 5 ≤ i := by omega
      rcases hcases with rfl | rfl | rfl | rfl | rfl | h
      · simp
      · simp
      · simp
      · simp
      · simp
      · have n0 : i ≠ 0 := by omega
        have n1 : i ≠ 1 := by omega
        have n2 : i ≠ 2 := by omega
        have n3 : i ≠ 3 := by omega
        have n4 : i ≠ 4 := by omega
        have n5 : ¬ i < 5 := by omega
        simp only [n0, n1, n2, n3, n4, n5, if_false]
    · intro i
      rw [writePort_PORT_testBit, hP5, hP4, hP3, hP2, hP1]
      have hcases : i = 0 ∨ i = 1 ∨ i = 2 ∨ i = 3 ∨ i = 4 ∨ 5 ≤ i := by omega
      rcases hcases with rfl | rfl | rfl | rfl | rfl | h
      · simp
      · simp
      · simp
      · simp
      · simp
      · have n0 : i ≠ 0 := by omega
        have n1 : i ≠ 1 := by omega
        have n2 : i ≠ 2 := by omega
        have n3 : i ≠ 3 := by omega
        have n4 : i ≠ 4 := by omega
        have n5 : ¬ i < 5 := by omega
        simp only [n0, n1, n2, n3, n4, n5, if_false]
    · have hw : (writePort data s).PIN = s.PIN := rfl
      rw [hw, hI5, hI4, hI3, hI2, hI1]
  rw [hs] at h5
  exact ⟨s1, s2, s3, s4, h1, h2, h3, h4, h5⟩

theorem bit_value (x i : Nat) :
    (if x.testBit i then (1 : Int) else 0) = ((x / 2 ^ i % 2 : Nat) : Int) := by
  rw [← Nat.toNat_testBit]
  cases x.testBit i <;> rfl

theorem mod_32_bits (x : Nat) :
    x % 32 = x / 2 ^ 0 % 2 * 2 ^ 0 + x / 2 ^ 1 % 2 * 2 ^ 1 + x / 2 ^ 2 % 2 * 2 ^ 2
      + x / 2 ^ 3 % 2 * 2 ^ 3 + x / 2 ^ 4 % 2 * 2 ^ 4 := by
  norm_num
  omega

/-- C15: `readPort()` leaves the registers that `readInt(0); readInt(1); readInt(2);
readInt(3); readInt(4)` leaves, and returns the sum of the five returned values, the value
for pin `i` weighted by `2 ^ i`; each `readInt(i)` returns the same value on the registers
before the first call. -/
theorem readPort_eq_readInt_chain (s : Port) :
    ∃ (r0 r1 r2 r3 r4 : Int) (s1 s2 s3 s4 : Port),
      readInt 0 s = Outcome.ret r0 s1 ∧
      readInt 1 s1 = Outcome.ret r1 s2 ∧
      readInt 2 s2 = Outcome.ret r2 s3 ∧
      readInt 3 s3 = Outcome.ret r3 s4 ∧
      readInt 4 s4 = Outcome.ret r4 (readPort s).2 ∧
      (readPort s).1 = r0 * 2 ^ 0 + r1 * 2 ^ 1 + r2 * 2 ^ 2 + r3 * 2 ^ 3 + r4 * 2 ^ 4 ∧
      (∃ t : Port, readInt 1 s = Outcome.ret r1 t) ∧
      (∃ t : Port, readInt 2 s = Outcome.ret r2 t) ∧
      (∃ t : Port, readInt 3 s = Outcome.ret r3 t) ∧
      (∃ t : Port, readInt 4 s = Outcome.ret r4 t) := by
  obtain ⟨r0, s1, h1, hr0, _, hD1, hP1, hI1⟩ := readInt_post s 0 (by decide)
  obtain ⟨r1, s2, h2, hr1, _, hD2, hP2, hI2⟩ := readInt_post s1 1 (by decide)
  obtain ⟨r2, s3, h3, hr2, _, hD3, hP3, hI3⟩ := readInt_post s2 2 (by decide)
  obtain ⟨r3, s4, h4, hr3, _, hD4, hP4, hI4⟩ := readInt_post s3 3 (by decide)
  obtain ⟨r4, s5, h5, hr4, _, hD5, hP5, hI5⟩ := readInt_post s4 4 (by decide)
  obtain ⟨q1, t1, g1, hq1, _⟩ := readInt_post s 1 (by decide)
  obtain ⟨q2, t2, g2, hq2, _⟩ := readInt_post s 2 (by decide)
  obtain ⟨q3, t3, g3, hq3, _⟩ := readInt_post s 3 (by decide)
  obtain ⟨q4, t4, g4, hq4, _⟩ := readInt_post s 4 (by decide)
  have e0 : (0 : Int).toNat = 0 := rfl
  have e1 : (1 : Int).toNat = 1 := rfl
  have e2 : (2 : Int).toNat = 2 := rfl
  have e3 : (3 : Int).toNat = 3 := rfl
  have e4 : (4 : Int).toNat = 4 := rfl
  rw [e0] at hr0 hD1
  rw [e1] at hr1 hD2 hq1
  rw [e2] at hr2 hD3 hq2
  rw [e3] at hr3 hD4 hq3
  rw [e4] at hr4 hD5 hq4
  have k1 : s1.PIN = s.PIN := hI1
  have k2 : s2.PIN = s.PIN := hI2.trans k1
  have k3 : s3.PIN = s.PIN := hI3.trans k2
  have k4 : s4.PIN = s.PIN := hI4.trans k3
  rw [k1] at hr1
  rw [k2] at hr2
  rw [k3] at hr3
  rw [k4] at hr4
  have hs : s5 = (readPort s).2 := by
    apply port_ext_bits
    · intro i
      have hw : (readPort s).2.DDR.val.testBit i
          = if i < 5 then false else s.DDR.val.testBit i := setPortInput_DDR_testBit s i
      rw [hw, hD5, hD4, hD3, hD2, hD1]
      have hcases : i = 0 ∨ i = 1 ∨ i = 2 ∨ i = 3 ∨ i = 4 ∨ 5 ≤ i := by omega
      rcases hcases with rfl | rfl | rfl | rfl | rfl | h
      · simp
      · simp
      · simp
      · simp
      · simp
      · have n0 : i ≠ 0 := by omega
        have n1 : i ≠ 1 := by omega
        have n2 : i ≠ 2 := by omega
        have n3 : i ≠ 3 := by omega
        have n4 : i ≠ 4 := by omega
        have n5 : ¬ i < 5 := by omega
        simp only [n0, n1, n2, n3, n4, n5, if_false]
    · intro i
      have hw : (readPort s).2.PORT = s.PORT := rfl
      rw [hw, hP5, hP4, hP3, hP2, hP1]
    · have hw : (readPort s).2.PIN = s.PIN := rfl
      rw [hw, hI5, k4]
  have hval : (readPort s).1
      = r0 * 2 ^ 0 + r1 * 2 ^ 1 + r2 * 2 ^ 2 + r3 * 2 ^ 3 + r4 * 2 ^ 4 := by
    have hx := s.PIN.isLt
    have hm : PORT_WIDTH_BITMASK = ((31 : Nat) : Int) := rfl
    have hp : (setPortInput s).PIN = s.PIN := rfl
    have hr : (readPort s).1 = ((s.PIN.val % 32 : Nat) : Int) := by
      simp only [readPort, hp]
      rw [hm, int_and_natCast _ _ (by omega) (by omega), and_31_eq]
    rw [hr, hr0, hr1, hr2, hr3, hr4, bit_value, bit_value, bit_value, bit_value, bit_value]
    exact_mod_cast mod_32_bits s.PIN.val
  rw [hs] at h5
  refine ⟨r0, r1, r2, r3, r4, s1, s2, s3, s4, h1, h2, h3, h4, h5, hval, ?_, ?_, ?_, ?_⟩
  · exact ⟨t1, by rw [g1, hq1, hr1]⟩
  · exact ⟨t2, by rw [g2, hq2, hr2]⟩
  · exact ⟨t3, by rw [g3, hq3, hr3]⟩
  · exact ⟨t4, by rw [g4, hq4, hr4]⟩

/-! ## Algebra of pin-level writes -/

/-- C16: for different valid pins `p` and `q` and values in {0, 1}, `writeInt(p, v);
writeInt(q, w)` and `writeInt(q, w); writeInt(p, v)` both return and leave the same
registers. -/
theorem writeInt_commute (s : Port) (p q v w : Int) (hp : 0 ≤ p ∧ p < 5)
    (hq : 0 ≤ q ∧ q < 5) (hpq : p ≠ q) (hv : v = 0 ∨ v = 1) (hw : w = 0 ∨ w = 1) :
    ∃ s1 t1 s2 : Port,
      writeInt p v s = Outcome.ret () s1 ∧ writeInt q w s1 = Outcome.ret () s2 ∧
      writeInt q w s = Outcome.ret () t1 ∧ writeInt p v t1 = Outcome.ret () s2 := by
  obtain ⟨s1, h1, hP1, hD1, hI1⟩ := writeInt_post s p v hp hv
  obtain ⟨s2, h2, hP2, hD2, hI2⟩ := writeInt_post s1 q w hq hw
  obtain ⟨t1, g1, gP1, gD1, gI1⟩ := writeInt_post s q w hq hw
  obtain ⟨t2, g2, gP2, gD2, gI2⟩ := writeInt_post t1 p v hp hv
  have hne : p.toNat ≠ q.toNat := by omega
  have hs : t2 = s2 := by
    apply port_ext_bits
    · intro i
      rw [gD2, gD1, hD2, hD1]
      by_cases hip : i = p.toNat
      · by_cases hiq : i = q.toNat
        · exact absurd (hip.symm.trans hiq) hne
        · simp only [if_pos hip, if_neg hiq]
      · by_cases hiq : i = q.toNat
        · simp only [if_neg hip, if_pos hiq]
        · simp only [if_neg hip, if_neg hiq]
    · intro i
      rw [gP2, gP1, hP2, hP1]
      by_cases hip : i = p.toNat
      · by_cases hiq : i = q.toNat
        · exact absurd (hip.symm.trans hiq) hne
        · simp only [if_pos hip, if_neg hiq]
      · by_cases hiq : i = q.toNat
        · simp only [if_neg hip, if_pos hiq]
        · simp only [if_neg hip, if_neg hiq]
    · rw [gI2, gI1, hI2, hI1]
  rw [hs] at g2
  exact ⟨s1, t1, s2, h1, h2, g1, g2⟩

/-- Witness for C16: pins 1 and 3, values 1 and 0, registers `DDR = 0`, `PORT = 8`,
`PIN = 5`. -/
theorem writeInt_commute_witness :
    ((0 : Int) ≤ 1 ∧ (1 : Int) < 5) ∧ ((0 : Int) ≤ 3 ∧ (3 : Int) < 5) ∧ (1 : Int) ≠ 3 ∧
    ((1 : Int) = 0 ∨ (1 : Int) = 1) ∧ ((0 : Int) = 0 ∨ (0 : Int) = 1) ∧
    ∃ s1 t1 s2 : Port,
      writeInt 1 1 { DDR := 0, PORT := 8, PIN := 5 } = Outcome.ret () s1 ∧
      writeInt 3 0 s1 = Outcome.ret () s2 ∧
      writeInt 3 0 { DDR := 0, PORT := 8, PIN := 5 } = Outcome.ret () t1 ∧
      writeInt 1 1 t1 = Outcome.ret () s2 :=
  ⟨by decide, by decide, by decide, by decide, by decide,
    writeInt_commute { DDR := 0, PORT := 8, PIN := 5 } 1 3 1 0 (by decide) (by decide)
      (by decide) (by decide) (by decide)⟩

/-- C17: for a valid pin `p` and values in {0, 1}, `writeInt(p, v); writeInt(p, w)` leaves
the registers that `writeInt(p, w)` alone leaves; in particular `writeInt(p, v)` twice
leaves what it leaves once. -/
theorem writeInt_last_wins (s : Port) (p v w : Int) (hp : 0 ≤ p ∧ p < 5)
    (hv : v = 0 ∨ v = 1) (hw : w = 0 ∨ w = 1) :
    (∃ s1 s2 : Port,
      writeInt p v s = Outcome.ret () s1 ∧ writeInt p w s1 = Outcome.ret () s2 ∧
      writeInt p w s = Outcome.ret () s2) ∧
    (∃ s1 : Port, writeInt p v s = Outcome.ret () s1 ∧ writeInt p v s1 = Outcome.ret () s1) := by
  have key : ∀ a b : Int, (a = 0 ∨ a = 1) → (b = 0 ∨ b = 1) →
      ∃ s1 s2 : Port,
        writeInt p a s = Outcome.ret () s1 ∧ writeInt p b s1 = Outcome.ret () s2 ∧
        writeInt p b s = Outcome.ret () s2 := by
    intro a b ha hb
    obtain ⟨s1, h1, hP1, hD1, hI1⟩ := writeInt_post s p a hp ha
    obtain ⟨s2, h2, hP2, hD2, hI2⟩ := writeInt_post s1 p b hp hb
    obtain ⟨t1, g1, gP1, gD1, gI1⟩ := writeInt_post s p b hp hb
    have hs : t1 = s2 := by
      apply port_ext_bits
      · intro i
        rw [gD1, hD2, hD1]
        by_cases hip : i = p.toNat
        · simp only [if_pos hip]
        · simp only [if_neg hip]
      · intro i
        rw [gP1, hP2, hP1]
        by_cases hip : i = p.toNat
        · simp only [if_pos hip]
        · simp only [if_neg hip]
      · rw [gI1, hI2, hI1]
    rw [hs] at g1
    exact ⟨s1, s2, h1, h2, g1⟩
  refine ⟨key v w hv hw, ?_⟩
  obtain ⟨s1, s2, h1, h2, h3⟩ := key v v hv hv
  have e : s2 = s1 := by
    rw [h1] at h3
    injection h3 with _ h3
    exact h3.symm
  rw [e] at h2
  exact ⟨s1, h1, h2⟩

/-- Witness for C17: pin 2, first value 1, second value 0, registers `DDR = 3`,
`PORT = 31`, `PIN = 0`. -/
theorem writeInt_last_wins_witness :
    ((0 : Int) ≤ 2 ∧ (2 : Int) < 5) ∧ ((1 : Int) = 0 ∨ (1 : Int) = 1) ∧
    ((0 : Int) = 0 ∨ (0 : Int) = 1) ∧
    ((∃ s1 s2 : Port,
        writeInt 2 1 { DDR := 3, PORT := 31, PIN := 0 } = Outcome.ret () s1 ∧
        writeInt 2 0 s1 = Outcome.ret () s2 ∧
        writeInt 2 0 { DDR := 3, PORT := 31, PIN := 0 } = Outcome.ret () s2) ∧
      (∃ s1 : Port, writeInt 2 1 { DDR := 3, PORT := 31, PIN := 0 } = Outcome.ret () s1 ∧
        writeInt 2 1 s1 = Outcome.ret () s1)) :=
  ⟨by decide, by decide, by decide,
    writeInt_last_wins { DDR := 3, PORT := 31, PIN := 0 } 2 1 0 (by decide) (by decide)
      (by decide)⟩

end PortInterface
